import Mathlib

/-!
Verification development for the day-plan schedule generator of the
`task_kanri` repository (`src/index.tsx`).

Timestamps are modelled as `Int` milliseconds on the local timeline, the
value a JS `Date` carries; midnight of the plan day sits at a multiple of
`86400000`.  A possibly-invalid `Date` (JS `Invalid Date`, whose order
comparisons are all false) is modelled as `Option Int`, `none` being the
invalid date.  All constants are in milliseconds:
`60000` = 1 minute, `900000` = 15 minutes, `3600000` = 1 hour,
`10800000` = 3 hours, `21600000` = 6 hours, `72000000` = 20:00,
`86400000` = 24 hours.
-/

namespace TaskKanri

/-- JS `setHours(0,0,0,0)`: midnight of the local day containing `t`. -/
def dayFloor (t : Int) : Int := t - t % 86400000

/-- JS `Date.getHours`: the hour-of-day component. -/
def hourOfDay (t : Int) : Int := (t % 86400000) / 3600000

/-- JS `Date.getMinutes`: the minute-of-hour component. -/
def minOfHour (t : Int) : Int := (t % 3600000) / 60000

/-- Function `ceil15` from the source: if `getMinutes t` is a multiple of 15 the date
is returned unchanged (seconds included); otherwise the minutes are bumped to
the next multiple of 15 and seconds/milliseconds are zeroed, i.e. the result
is the hour floor plus the bumped minutes. -/
def ceil15 (t : Int) : Int :=
  if minOfHour t % 15 = 0 then t
  else (t - t % 3600000) + (minOfHour t + (15 - minOfHour t % 15)) * 60000

/-- Two-digit decimal rendering, as `toTimeString` produces. -/
def pad2 (n : Nat) : String := if n < 10 then "0" ++ toString n else toString n

/-- Function `formatTime` from the source: `date.toTimeString().slice(0, 5)`, i.e.
`"HH:mm"` of the local wall clock; an invalid date renders as the first five
characters of `"Invalid Date"`. -/
def formatTime : Option Int → String
  | none => "Inval"
  | some t => pad2 (hourOfDay t).toNat ++ ":" ++ pad2 (minOfHour t).toNat

/-- JS `String.prototype.split` with a one-character separator. -/
def splitOnChar (c : Char) : List Char → List (List Char)
  | [] => [[]]
  | x :: xs =>
    if x = c then [] :: splitOnChar c xs
    else
      match splitOnChar c xs with
      | r :: rs => (x :: r) :: rs
      | [] => [[x]]

/-- One step of decimal accumulation for `jsNumber`. -/
def digitsToNatAux : Nat → List Char → Option Nat
  | acc, [] => some acc
  | acc, ch :: cs =>
    if ch.isDigit then digitsToNatAux (acc * 10 + (ch.toNat - 48)) cs
    else none

/-- JS `Number(str)` restricted to the strings this program feeds it:
`Number("") = 0`, a plain decimal digit string is its value, anything else
is `NaN` (`none`). -/
def jsNumber (l : List Char) : Option Nat := digitsToNatAux 0 l

/-- Function `parseTime` from the source: split on `':'`, convert the first two parts
with `Number`, and `setHours(hours, minutes, 0, 0)` on the base date.  A
missing or non-numeric component yields an invalid date (`none`). -/
def parseTime (s : String) (base : Int) : Option Int :=
  match (splitOnChar ':' s.toList).map jsNumber with
  | some h :: some m :: _ => some (dayFloor base + (h : Int) * 3600000 + (m : Int) * 60000)
  | _ :: _ :: _ => none
  | _ => none

/-- JS `<` on possibly-invalid dates: false whenever a side is invalid. -/
def oLt : Option Int → Option Int → Bool
  | some a, some b => a < b
  | _, _ => false

/-- Function `hasOverlap` from the source: `start1 < end2 && end1 > start2`. -/
def hasOverlap (s1 e1 s2 e2 : Option Int) : Bool :=
  oLt s1 e2 && oLt s2 e1

/-- A schedule block of the working set.  The source field `end` is a Lean
keyword and is embedded as `endTime`. -/
structure ScheduleBlock where
  start : Option Int
  endTime : Option Int
  title : String
  type : String
  minutes : Option Int
deriving DecidableEq, Repr

/-- Function `checkConflict` from the source. -/
def checkConflict (block : ScheduleBlock) (blocks : List ScheduleBlock) : Bool :=
  blocks.any fun b => hasOverlap block.start block.endTime b.start b.endTime

/-- The forward offsets (minutes) scanned by `findAvailableSlot`. -/
def forwardOffsets : List Int := [15, 30, 45, 60, 75, 90]

/-- The backward offsets (minutes) scanned by `findAvailableSlot`. -/
def backwardOffsets : List Int := [15, 30, 45, 60, 75, 90, 105, 120, 135, 150, 165, 180]

/-- The probe block `trySlot` tests for conflicts. -/
def testBlock (duration start : Int) : ScheduleBlock :=
  { start := some start, endTime := some (start + duration * 60000),
    title := "test", type := "test", minutes := some duration }

/-- Function `trySlot` from the source (the inner closure of `findAvailableSlot`):
reject a start below `minTime` or an end above `maxTime` (when supplied),
then require conflict-freedom. -/
def trySlot (duration : Int) (blocks : List ScheduleBlock)
    (minTime maxTime : Option Int) (start : Int) : Bool :=
  (match minTime with | some m => decide (m ≤ start) | none => true) &&
  (match maxTime with | some mx => decide (start + duration * 60000 ≤ mx) | none => true) &&
  !checkConflict (testBlock duration start) blocks

/-- Function `findAvailableSlot` from the source: try the preferred start, then the
forward offsets in order, then the backward offsets in order, returning the
first accepted candidate. -/
def findAvailableSlot (preferredStart : Int) (duration : Int)
    (blocks : List ScheduleBlock) (minTime maxTime : Option Int) : Option Int :=
  if trySlot duration blocks minTime maxTime preferredStart then some preferredStart
  else
    match forwardOffsets.find? (fun o => trySlot duration blocks minTime maxTime (preferredStart + o * 60000)) with
    | some o => some (preferredStart + o * 60000)
    | none =>
      match backwardOffsets.find? (fun o => trySlot duration blocks minTime maxTime (preferredStart - o * 60000)) with
      | some o => some (preferredStart - o * 60000)
      | none => none

/-- The literal dinner candidate list of `findDinnerSlot`. -/
def dinnerCandidates : List String := ["21:00", "20:30", "21:30", "20:00", "22:00", "23:00"]

/-- The 60-minute probe block `findDinnerSlot` tests for conflicts. -/
def dinnerTestBlock (s : Int) : ScheduleBlock :=
  { start := some s, endTime := some (s + 3600000),
    title := "dinner", type := "dinner", minutes := some 60 }

/-- The candidate loop of `findDinnerSlot`: skip a candidate whose end
exceeds `maxTime`, return the first conflict-free one.  The `none` branch of
the parse is unreachable for the literal candidate list (every candidate
parses). -/
def dinnerGo (baseDate : Int) (maxTime : Option Int) (blocks : List ScheduleBlock) :
    List String → Option Int
  | [] => none
  | timeStr :: rest =>
    match parseTime timeStr baseDate with
    | some start =>
      if oLt maxTime (some (start + 3600000)) then dinnerGo baseDate maxTime blocks rest
      else if checkConflict (dinnerTestBlock start) blocks then dinnerGo baseDate maxTime blocks rest
      else some start
    | none => dinnerGo baseDate maxTime blocks rest

/-- Function `findDinnerSlot` from the source. -/
def findDinnerSlot (baseDate : Int) (blocks : List ScheduleBlock) : Option Int :=
  dinnerGo baseDate (parseTime "24:00" baseDate) blocks dinnerCandidates

/-- A caller-supplied fixed event (clock strings).  Source field `end` is the
Lean keyword, embedded as `endTime`. -/
structure FixedEvent where
  start : String
  endTime : String
  title : String
deriving DecidableEq, Repr

/-- A backlog work item as the generator reads it from the task store:
title, category, estimated minutes and priority rank (the priority is not
consulted by the placement code, whose input arrives pre-sorted). -/
structure Task where
  title : String
  category : String
  minutes : Int
  priority : String
deriving DecidableEq, Repr

/-- An output slot of the generated schedule (clock strings plus label,
kind and colour).  Source field `end` embedded as `endTime`. -/
structure TimeSlot where
  start : String
  endTime : String
  title : String
  type : String
  color : String
deriving DecidableEq, Repr

/-- The category colour table of the backlog-placement code, with its
`#9ca3af` default. -/
def categoryColor (c : String) : String :=
  if c = "future" then "#ef4444"
  else if c = "now" then "#3b82f6"
  else if c = "maintain" then "#10b981"
  else "#9ca3af"

/-- The working-set block a fixed event is parsed to. -/
def fixedBlock (baseDate : Int) (e : FixedEvent) : ScheduleBlock :=
  { start := parseTime e.start baseDate, endTime := parseTime e.endTime baseDate,
    title := e.title, type := "fixed",
    minutes :=
      match parseTime e.endTime baseDate, parseTime e.start baseDate with
      | some a, some b => some ((a - b) / 60000)
      | _, _ => none }

/-- The output slot of a fixed event: the caller's raw clock strings. -/
def fixedSlot (e : FixedEvent) : TimeSlot :=
  { start := e.start, endTime := e.endTime, title := e.title, type := "fixed", color := "#ef4444" }

/-- The 15-minute reply block at step time `t`. -/
def replyBlock0 (t : Int) : ScheduleBlock :=
  { start := some t, endTime := some (t + 900000),
    title := "返信枠", type := "reply", minutes := some 15 }

/-- The reply block after the conflict check and possible relocation through
`findAvailableSlot` bounded to `[planStart, endOfDay]`. -/
def replyBlockAt (planStart endOfDay t : Int) (blocks : List ScheduleBlock) : ScheduleBlock :=
  if checkConflict (replyBlock0 t) blocks then
    match findAvailableSlot t 15 blocks (some planStart) (some endOfDay) with
    | some s => { replyBlock0 t with start := some s, endTime := some (s + 900000) }
    | none => replyBlock0 t
  else replyBlock0 t

/-- The output slot pushed for a committed reply block. -/
def replySlotOf (rb : ScheduleBlock) : TimeSlot :=
  { start := formatTime rb.start, endTime := formatTime rb.endTime,
    title := "返信枠", type := "reply", color := "#3b82f6" }

/-- The reply-window loop body of `generate`, fuel-indexed so that it is
structurally recursive and kernel-computable.  `replyLoop` below supplies
fuel that always suffices, and `replyLoop_unfold` proves the loop satisfies
exactly the recurrence of the source `while` loop: at each 3-hour step before
`endOfDay`, build a 15-minute block at the step time; if it conflicts, try to
relocate it with `findAvailableSlot` bounded to `[planStart, endOfDay]`;
commit it (working set and output) unless it still conflicts. -/
def replyLoopF : Nat → Int → Int → Int → List ScheduleBlock → List TimeSlot →
    List ScheduleBlock × List TimeSlot
  | 0, _, _, _, blocks, result => (blocks, result)
  | fuel + 1, planStart, endOfDay, t, blocks, result =>
    if t < endOfDay then
      let rb := replyBlockAt planStart endOfDay t blocks
      if checkConflict rb blocks then
        replyLoopF fuel planStart endOfDay (t + 10800000) blocks result
      else
        replyLoopF fuel planStart endOfDay (t + 10800000) (blocks ++ [rb])
          (result ++ [replySlotOf rb])
    else (blocks, result)

/-- The reply-window loop of `generate` (see `replyLoopF`). -/
def replyLoop (planStart endOfDay t : Int) (blocks : List ScheduleBlock)
    (result : List TimeSlot) : List ScheduleBlock × List TimeSlot :=
  replyLoopF ((endOfDay - t).toNat + 1) planStart endOfDay t blocks result

/-- The block committed for a placed backlog task. -/
def taskBlock (task : Task) (s e : Int) : ScheduleBlock :=
  { start := some s, endTime := some e, title := task.title,
    type := task.category, minutes := some task.minutes }

/-- The output slot of a placed backlog task. -/
def taskSlot (task : Task) (s e : Int) : TimeSlot :=
  { start := formatTime (some s), endTime := formatTime (some e),
    title := task.title ++ " (" ++ toString task.minutes ++ "分)",
    type := task.category, color := categoryColor task.category }

/-- The warning emitted for an unplaceable backlog task (names the item and
its duration). -/
def taskWarning (task : Task) : String :=
  "⚠️ タスク「" ++ task.title ++ "」(" ++ toString task.minutes ++ "分)を配置できませんでした"

/-- The inner `while` of the backlog sweep, fuel-indexed (see `replyLoopF`
for the pattern; `placeLoop_unfold` recovers the source recurrence).  From
cursor `t`, scan forward in 15-minute steps: stop with failure once the
cursor reaches `dayEnd` or the candidate end overruns it; place the task at
the first conflict-free candidate and return its interval together with the
new cursor (the block end).  On failure the cursor keeps the value the scan
reached. -/
def placeLoopF : Nat → Int → Task → Int → List ScheduleBlock →
    Option (Int × Int) × Int
  | 0, _, _, t, _ => (none, t)
  | fuel + 1, dayEnd, task, t, blocks =>
    if t < dayEnd then
      let taskEnd := t + task.minutes * 60000
      if dayEnd < taskEnd then (none, t)
      else if checkConflict (taskBlock task t taskEnd) blocks then
        placeLoopF fuel dayEnd task (t + 900000) blocks
      else (some (t, taskEnd), taskEnd)
    else (none, t)

/-- The per-task placement scan of the backlog sweep (see `placeLoopF`). -/
def placeLoop (dayEnd : Int) (task : Task) (t : Int) (blocks : List ScheduleBlock) :
    Option (Int × Int) × Int :=
  placeLoopF ((dayEnd - t).toNat + 1) dayEnd task t blocks

/-- Result of the backlog sweep: the grown working set, output and warning
lists, the final cursor, and — as verification-only ghost data — the ordered
list of per-task outcomes (`some (start, end)` for a placed task, `none` for
a skipped one). -/
structure SweepOut where
  blocks : List ScheduleBlock
  result : List TimeSlot
  warnings : List String
  cursor : Int
  outcomes : List (Task × Option (Int × Int))
deriving DecidableEq, Repr

/-- The backlog sweep of `generate`: one shared forward cursor, each task in
order scanned from it with `placeLoop`; a placed task commits its block and
advances the cursor to the block end, a failed one appends its warning and
leaves the cursor where the scan stopped. -/
def backlogSweep (dayEnd : Int) (t : Int) (blocks : List ScheduleBlock)
    (result : List TimeSlot) (warnings : List String) : List Task → SweepOut
  | [] => { blocks := blocks, result := result, warnings := warnings, cursor := t, outcomes := [] }
  | task :: rest =>
    match placeLoop dayEnd task t blocks with
    | (some (s, e), _) =>
      let out := backlogSweep dayEnd e (blocks ++ [taskBlock task s e])
        (result ++ [taskSlot task s e]) warnings rest
      { out with outcomes := (task, some (s, e)) :: out.outcomes }
    | (none, t2) =>
      let out := backlogSweep dayEnd t2 blocks result (warnings ++ [taskWarning task]) rest
      { out with outcomes := (task, none) :: out.outcomes }

/-- The lunch block. -/
def lunchBlock (s : Int) : ScheduleBlock :=
  { start := some s, endTime := some (s + 3600000),
    title := "ランチ", type := "lunch", minutes := some 60 }

/-- The lunch output slot. -/
def lunchSlot (s : Int) : TimeSlot :=
  { start := formatTime (some s), endTime := formatTime (some (s + 3600000)),
    title := "ランチ 🍽️", type := "lunch", color := "#10b981" }

/-- The dinner block. -/
def dinnerBlock (s : Int) : ScheduleBlock :=
  { start := some s, endTime := some (s + 3600000),
    title := "夜ご飯", type := "dinner", minutes := some 60 }

/-- The dinner output slot. -/
def dinnerSlot (s : Int) : TimeSlot :=
  { start := formatTime (some s), endTime := formatTime (some (s + 3600000)),
    title := "夜ご飯 🍽️", type := "dinner", color := "#f59e0b" }

/-- Warning when no lunch slot could be secured. -/
def lunchWarning : String := "⚠️ ランチ枠を確保できませんでした"

/-- Warning when no dinner slot could be secured. -/
def dinnerWarning : String := "⚠️ 夜ご飯枠を確保できませんでした（会食などで代替されている可能性）"

/-- The informational family-time output slot `20:00–24:00` (its end renders
as `"00:00"`, `toTimeString` of next midnight). -/
def familySlot (baseDate : Int) : TimeSlot :=
  { start := formatTime (parseTime "20:00" baseDate),
    endTime := formatTime (parseTime "24:00" baseDate),
    title := "家族時間", type := "family", color := "#8b5cf6" }

/-- The lunch stage: preferred start `ceil15 (now + 6h)`, searched with
`findAvailableSlot` bounded to `[planStart, 20:00]`; on failure only the
warning is produced. -/
def lunchStage (now planStart endOfDay : Int) (blocks : List ScheduleBlock)
    (result : List TimeSlot) : List ScheduleBlock × List TimeSlot × List String :=
  match findAvailableSlot (ceil15 (now + 21600000)) 60 blocks (some planStart) (some endOfDay) with
  | some s => (blocks ++ [lunchBlock s], result ++ [lunchSlot s], [])
  | none => (blocks, result, [lunchWarning])

/-- The dinner stage: `findDinnerSlot`, committing on success, warning on
failure. -/
def dinnerStage (baseDate : Int) (blocks : List ScheduleBlock)
    (result : List TimeSlot) (warnings : List String) :
    List ScheduleBlock × List TimeSlot × List String :=
  match findDinnerSlot baseDate blocks with
  | some s => (blocks ++ [dinnerBlock s], result ++ [dinnerSlot s], warnings)
  | none => (blocks, result, warnings ++ [dinnerWarning])

/-- Stable insertion of a slot, after every slot whose start string is
`<` its own: the JS stable comparator sort on `a.start.localeCompare(b.start)`. -/
def insertSlot (a : TimeSlot) : List TimeSlot → List TimeSlot
  | [] => [a]
  | b :: bs => if a.start < b.start then a :: b :: bs else b :: insertSlot a bs

/-- The final `result.sort` of `generate`: stable sort by start clock string. -/
def sortSchedule : List TimeSlot → List TimeSlot
  | [] => []
  | a :: rest => insertSlot a (sortSchedule rest)

/-- The value `generate` returns: the sorted schedule, the warnings, and the
run metadata, plus — as verification-only ghost data — the final working set
`blocks`, the backlog `outcomes` and the final `cursor`. -/
structure GenOut where
  schedule : List TimeSlot
  warnings : List String
  planStart : Int
  pressedHour : Int
  pressedMinute : Int
  lunchHour : Int
  lunchMinute : Int
  blocks : List ScheduleBlock
  outcomes : List (Task × Option (Int × Int))
  cursor : Int
deriving DecidableEq, Repr

/-- The deep-then-light processing order of the backlog sweep. -/
def tasksToPlace (tasks : List Task) : List Task :=
  tasks.filter (fun tk => 45 ≤ tk.minutes) ++ tasks.filter (fun tk => tk.minutes < 45)

/-- Function `generate`, the schedule-generation run of `POST /api/schedule/generate`:
anchor `planStart = ceil15 (now + 15min)`, commit fixed events verbatim,
place reply windows, lunch, dinner, append the family slot, sweep the
backlog (deep work first), and sort the output by start clock string.
`20:00` and `24:00` literals are written as their parsed values
(`parseTime_2000` / `parseTime_2400` prove the equality). -/
def generate (now : Int) (fixedEvents : List FixedEvent) (tasks : List Task) : GenOut :=
  let baseDate := dayFloor now
  let planStart := ceil15 (now + 900000)
  let blocks0 := fixedEvents.map (fixedBlock baseDate)
  let result0 := fixedEvents.map fixedSlot
  let endOfDay := baseDate + 72000000
  let br := replyLoop planStart endOfDay planStart blocks0 result0
  let lr := lunchStage now planStart endOfDay br.1 br.2
  let dr := dinnerStage baseDate lr.1 lr.2.1 lr.2.2
  let result4 := dr.2.1 ++ [familySlot baseDate]
  let out := backlogSweep endOfDay planStart dr.1 result4 dr.2.2 (tasksToPlace tasks)
  { schedule := sortSchedule out.result, warnings := out.warnings,
    planStart := planStart,
    pressedHour := hourOfDay now, pressedMinute := minOfHour now,
    lunchHour := hourOfDay (now + 21600000), lunchMinute := minOfHour (now + 21600000),
    blocks := out.blocks, outcomes := out.outcomes, cursor := out.cursor }

/-- Mutual conflict-freedom of a working set, phrased with the program's own
conflict predicate: no block overlaps any block after it. -/
def noMutualOverlap : List ScheduleBlock → Bool
  | [] => true
  | b :: bs => !checkConflict b bs && noMutualOverlap bs

/-! ## Basic lemmas about the time utilities -/

theorem dayFloor_idem (t : Int) : dayFloor (dayFloor t) = dayFloor t := by
  unfold dayFloor
  omega

theorem ceil15_of_aligned {t : Int} (h : minOfHour t % 15 = 0) : ceil15 t = t := by
  simp [ceil15, h]

theorem ceil15_minOfHour (t : Int) : minOfHour (ceil15 t) % 15 = 0 := by
  unfold ceil15 minOfHour
  split <;> omega

theorem ceil15_idem (t : Int) : ceil15 (ceil15 t) = ceil15 t :=
  ceil15_of_aligned (ceil15_minOfHour t)

theorem ceil15_ge (t : Int) : t ≤ ceil15 t := by
  unfold ceil15 minOfHour
  split <;> omega

theorem ceil15_lt (t : Int) : ceil15 t < t + 900000 := by
  unfold ceil15 minOfHour
  split <;> omega

/-! ## Parsing and formatting lemmas -/

theorem splitOnChar_ne_nil (c : Char) (l : List Char) : splitOnChar c l ≠ [] := by
  induction l with
  | nil => simp [splitOnChar]
  | cons x xs ih =>
    unfold splitOnChar
    split
    · simp
    · match h : splitOnChar c xs with
      | [] => simp
      | r :: rs => simp

theorem splitOnChar_cons_ne {c x : Char} (h : ¬ x = c) (xs : List Char) :
    splitOnChar c (x :: xs) =
      match splitOnChar c xs with
      | r :: rs => (x :: r) :: rs
      | [] => [[x]] := by
  rw [splitOnChar, if_neg h]

theorem splitOnChar_cons_sep (c : Char) (xs : List Char) :
    splitOnChar c (c :: xs) = [] :: splitOnChar c xs := by
  rw [splitOnChar, if_pos rfl]

theorem splitOnChar_no_sep {c : Char} {l : List Char} (h : c ∉ l) :
    splitOnChar c l = [l] := by
  induction l with
  | nil => rfl
  | cons x xs ih =>
    simp only [List.mem_cons, not_or] at h
    rw [splitOnChar_cons_ne (fun hx => h.1 hx.symm), ih h.2]

theorem splitOnChar_append_cons {c : Char} {l1 : List Char} (l2 : List Char)
    (h : c ∉ l1) : splitOnChar c (l1 ++ c :: l2) = l1 :: splitOnChar c l2 := by
  induction l1 with
  | nil => simpa using splitOnChar_cons_sep c l2
  | cons x xs ih =>
    simp only [List.mem_cons, not_or] at h
    simp only [List.cons_append]
    rw [splitOnChar_cons_ne (fun hx => h.1 hx.symm), ih h.2]

theorem parseTime_eq_of (s : String) (base : Int) (hh mm : Nat)
    (h : (splitOnChar ':' s.toList).map jsNumber = [some hh, some mm]) :
    parseTime s base = some (dayFloor base + (hh : Int) * 3600000 + (mm : Int) * 60000) := by
  unfold parseTime
  rw [h]

theorem parseTime_2000 (base : Int) : parseTime "20:00" base = some (dayFloor base + 72000000) := by
  have h := parseTime_eq_of "20:00" base 20 0 (by decide)
  rw [h]
  norm_num

theorem parseTime_2400 (base : Int) : parseTime "24:00" base = some (dayFloor base + 86400000) := by
  have h := parseTime_eq_of "24:00" base 24 0 (by decide)
  rw [h]
  norm_num

theorem pad2_digits : ∀ n : Fin 100, jsNumber (pad2 n.val).toList = some n.val ∧ ':' ∉ (pad2 n.val).toList := by
  decide

theorem pad2_digits' (n : Nat) (h : n < 100) :
    jsNumber (pad2 n).toList = some n ∧ ':' ∉ (pad2 n).toList :=
  pad2_digits ⟨n, h⟩

/-! ## Claim C6 -/

/-- C6 (counterexample): the claim says `ceil15 t` is the least timestamp on
an exact 15-minute boundary that is `≥ t`, for every timestamp `t`.  At
`t` = 09:15:30.000 (minutes component 15, seconds 30) the code returns `t`
unchanged, which is not on a 15-minute boundary. -/
theorem spec_c6_counterexample :
    ceil15 33330000 = 33330000 ∧ ¬ (ceil15 33330000 % 900000 = 0) := by
  decide

/-- C6 (amended): `ceil15` is idempotent and satisfies
`t ≤ ceil15 t < t + 15min` for every timestamp `t`; restricted to timestamps
with zero seconds/milliseconds component (`t % 60000 = 0`) it returns the
least timestamp on an exact 15-minute boundary `≥ t`, and a timestamp already
on a boundary is returned unchanged. -/
theorem spec_c6_amended (t : Int) :
    ceil15 (ceil15 t) = ceil15 t
    ∧ t ≤ ceil15 t
    ∧ ceil15 t < t + 900000
    ∧ (t % 60000 = 0 →
        ceil15 t % 900000 = 0 ∧ ∀ b : Int, b % 900000 = 0 → t ≤ b → ceil15 t ≤ b)
    ∧ (t % 900000 = 0 → ceil15 t = t) := by
  refine ⟨ceil15_idem t, ceil15_ge t, ceil15_lt t, fun h60 => ⟨?_, ?_⟩, fun h900 => ?_⟩
  · unfold ceil15 minOfHour
    split <;> omega
  · intro b hb htb
    unfold ceil15 minOfHour
    split <;> omega
  · unfold ceil15 minOfHour
    split <;> omega

/-- C6 witness: concrete instance of the amended claim at `t` = 00:08. -/
theorem spec_c6_witness :
    (480000 : Int) % 60000 = 0
    ∧ ceil15 480000 % 900000 = 0
    ∧ ceil15 480000 ≤ 900000
    ∧ ceil15 (ceil15 480000) = ceil15 480000 := by
  have h := spec_c6_amended 480000
  exact ⟨by decide, (h.2.2.2.1 (by decide)).1,
    (h.2.2.2.1 (by decide)).2 900000 (by decide) (by decide), h.1⟩

/-! ## Claim C9 -/

/-- C9: for every timestamp within the reference day with zero
seconds/milliseconds component, formatting the wall clock and parsing it back
on the same day is the identity. -/
theorem spec_c9_roundtrip (t : Int) (h0 : 0 ≤ t) (h1 : t < 86400000)
    (h2 : t % 60000 = 0) : parseTime (formatTime (some t)) 0 = some t := by
  obtain ⟨hh, mm, hhlt, hmlt, ht⟩ :
      ∃ hh mm : Nat, hh < 24 ∧ mm < 60 ∧ t = (hh : Int) * 3600000 + (mm : Int) * 60000 :=
    ⟨(t / 3600000).toNat, ((t % 3600000) / 60000).toNat, by omega, by omega, by omega⟩
  have hfh : (hourOfDay t).toNat = hh := by
    unfold hourOfDay
    omega
  have hfm : (minOfHour t).toNat = mm := by
    unfold minOfHour
    omega
  have hformat : formatTime (some t) = pad2 hh ++ ":" ++ pad2 mm := by
    rw [show formatTime (some t)
        = pad2 (hourOfDay t).toNat ++ ":" ++ pad2 (minOfHour t).toNat from rfl, hfh, hfm]
  have hdh := pad2_digits' hh (by omega)
  have hdm := pad2_digits' mm (by omega)
  have hlist : (pad2 hh ++ ":" ++ pad2 mm).toList
      = (pad2 hh).toList ++ ':' :: (pad2 mm).toList := by
    show ((pad2 hh ++ ":" ++ pad2 mm)).data = (pad2 hh).data ++ ':' :: (pad2 mm).data
    rw [String.data_append, String.data_append, List.append_assoc]
    rfl
  have hsplit : (splitOnChar ':' (pad2 hh ++ ":" ++ pad2 mm).toList).map jsNumber
      = [some hh, some mm] := by
    rw [hlist, splitOnChar_append_cons ((pad2 mm).toList) hdh.2,
      splitOnChar_no_sep hdm.2]
    simp only [List.map_cons, List.map_nil]
    rw [hdh.1, hdm.1]
  rw [hformat, parseTime_eq_of (pad2 hh ++ ":" ++ pad2 mm) 0 hh mm hsplit]
  have hdz : dayFloor 0 = 0 := by decide
  rw [hdz, ht]
  norm_num

/-- C9 witness: round trip at 09:00. -/
theorem spec_c9_witness : parseTime (formatTime (some 32400000)) 0 = some 32400000 :=
  spec_c9_roundtrip 32400000 (by decide) (by decide) (by decide)

/-! ## Claim C4 -/

/-- The full candidate sequence of `findAvailableSlot`: the preferred start,
the six forward offsets, then the twelve backward offsets. -/
def slotCandidates (p : Int) : List Int :=
  p :: (forwardOffsets.map (fun o => p + o * 60000)
    ++ backwardOffsets.map (fun o => p - o * 60000))

theorem findAvailableSlot_eq_find? (p d : Int) (blocks : List ScheduleBlock)
    (lo hi : Option Int) :
    findAvailableSlot p d blocks lo hi = (slotCandidates p).find? (trySlot d blocks lo hi) := by
  unfold findAvailableSlot slotCandidates
  rw [List.find?_cons]
  cases htry : trySlot d blocks lo hi p with
  | true => simp [htry]
  | false =>
    simp only [htry, Bool.false_eq_true, if_false]
    rw [List.find?_append, List.find?_map, List.find?_map]
    have hcf : (trySlot d blocks lo hi ∘ fun o => p + o * 60000)
        = (fun o => trySlot d blocks lo hi (p + o * 60000)) := rfl
    have hcb : (trySlot d blocks lo hi ∘ fun o => p - o * 60000)
        = (fun o => trySlot d blocks lo hi (p - o * 60000)) := rfl
    rw [hcf, hcb]
    cases hf : forwardOffsets.find? (fun o => trySlot d blocks lo hi (p + o * 60000)) with
    | some o => simp
    | none =>
      cases hb : backwardOffsets.find? (fun o => trySlot d blocks lo hi (p - o * 60000)) with
      | some o => simp
      | none => simp

theorem findAvailableSlot_sound {p d : Int} {blocks : List ScheduleBlock}
    {lo hi : Option Int} {t : Int} (h : findAvailableSlot p d blocks lo hi = some t) :
    trySlot d blocks lo hi t = true := by
  rw [findAvailableSlot_eq_find?] at h
  exact List.find?_some h

theorem trySlot_conflict_free {d : Int} {blocks : List ScheduleBlock}
    {lo hi : Option Int} {s : Int} (h : trySlot d blocks lo hi s = true) :
    checkConflict (testBlock d s) blocks = false := by
  unfold trySlot at h
  simp only [Bool.and_eq_true, Bool.not_eq_true'] at h
  exact h.2

theorem trySlot_bounds {d : Int} {blocks : List ScheduleBlock} {lo hi s : Int}
    (h : trySlot d blocks (some lo) (some hi) s = true) (hd : 0 < d) :
    lo ≤ s ∧ s < hi := by
  unfold trySlot at h
  simp only [Bool.and_eq_true, decide_eq_true_eq] at h
  obtain ⟨⟨h1, h2⟩, -⟩ := h
  constructor
  · exact h1
  · nlinarith

/-- C4: `findAvailableSlot` tests, in exactly this order, the preferred start,
the forward offsets +15…+90 (6 candidates) and the backward offsets −15…−180
(12 candidates), returning the first candidate accepted by the bounds- and
conflict-check `trySlot`, and `none` if all fail; consequently, when both
bounds are supplied and the duration is positive, every returned start lies
in `[lowerBound, upperBound)`. -/
theorem spec_c4_findSlot (p d : Int) (blocks : List ScheduleBlock) (lo hi : Option Int) :
    findAvailableSlot p d blocks lo hi = (slotCandidates p).find? (trySlot d blocks lo hi)
    ∧ ∀ l h t : Int, findAvailableSlot p d blocks (some l) (some h) = some t →
        0 < d → l ≤ t ∧ t < h := by
  refine ⟨findAvailableSlot_eq_find? p d blocks lo hi, fun l h t hfind hd => ?_⟩
  exact trySlot_bounds (findAvailableSlot_sound hfind) hd

/-- C4 witness: a concrete bounded search returning an in-bounds start. -/
theorem spec_c4_witness :
    findAvailableSlot 0 60 [] (some 0) (some 86400000) = some 0
    ∧ (0 : Int) ≤ 0 ∧ (0 : Int) < 86400000 := by
  have h := spec_c4_findSlot 0 60 [] (some 0) (some 86400000)
  exact ⟨by decide, h.2 0 86400000 0 (by decide) (by decide)⟩

/-! ## Claim C5 -/

/-- The six dinner candidate start times on the reference day, in the order
the source tries them: 21:00, 20:30, 21:30, 20:00, 22:00, 23:00. -/
def dinnerTimes (base : Int) : List Int :=
  [dayFloor base + 75600000, dayFloor base + 73800000, dayFloor base + 77400000,
   dayFloor base + 72000000, dayFloor base + 79200000, dayFloor base + 82800000]

theorem dinnerGo_eq (base : Int) (M : Option Int) (blocks : List ScheduleBlock)
    (cs : List String) :
    dinnerGo base M blocks cs
      = (cs.filterMap (fun c => parseTime c base)).find?
          (fun s => !(oLt M (some (s + 3600000)))
            && !(checkConflict (dinnerTestBlock s) blocks)) := by
  induction cs with
  | nil => rfl
  | cons c rest ih =>
    unfold dinnerGo
    cases hp : parseTime c base with
    | none => simp only [List.filterMap_cons, hp, ih]
    | some s =>
      simp only [List.filterMap_cons, hp, List.find?_cons]
      cases h1 : oLt M (some (s + 3600000)) <;>
        cases h2 : checkConflict (dinnerTestBlock s) blocks <;>
        simp [h1, h2, ih]

/-- C5: `findDinnerSlot` tries exactly the start times 21:00, 20:30, 21:30,
20:00, 22:00, 23:00 of the reference day in that order, each as a 60-minute
block, skipping a candidate whose end exceeds 24:00 and returning the first
remaining conflict-free one; it returns `none` if all six fail, and any
returned timestamp is one of the six candidates. -/
theorem spec_c5_findDinnerSlot (base : Int) (blocks : List ScheduleBlock) :
    findDinnerSlot base blocks
      = (dinnerTimes base).find?
          (fun s => !(oLt (some (dayFloor base + 86400000)) (some (s + 3600000)))
            && !(checkConflict (dinnerTestBlock s) blocks))
    ∧ ∀ t, findDinnerSlot base blocks = some t → t ∈ dinnerTimes base := by
  have e1 : parseTime "21:00" base = some (dayFloor base + 75600000) := by
    rw [parseTime_eq_of "21:00" base 21 0 (by decide)]
    norm_num
  have e2 : parseTime "20:30" base = some (dayFloor base + 73800000) := by
    rw [parseTime_eq_of "20:30" base 20 30 (by decide)]
    simp only [Option.some.injEq]
    omega
  have e3 : parseTime "21:30" base = some (dayFloor base + 77400000) := by
    rw [parseTime_eq_of "21:30" base 21 30 (by decide)]
    simp only [Option.some.injEq]
    omega
  have e4 : parseTime "20:00" base = some (dayFloor base + 72000000) := by
    rw [parseTime_eq_of "20:00" base 20 0 (by decide)]
    norm_num
  have e5 : parseTime "22:00" base = some (dayFloor base + 79200000) := by
    rw [parseTime_eq_of "22:00" base 22 0 (by decide)]
    norm_num
  have e6 : parseTime "23:00" base = some (dayFloor base + 82800000) := by
    rw [parseTime_eq_of "23:00" base 23 0 (by decide)]
    norm_num
  have hlist : dinnerCandidates.filterMap (fun c => parseTime c base) = dinnerTimes base := by
    simp [dinnerCandidates, dinnerTimes, List.filterMap_cons, e1, e2, e3, e4, e5, e6]
  have heq : findDinnerSlot base blocks
      = (dinnerTimes base).find?
          (fun s => !(oLt (some (dayFloor base + 86400000)) (some (s + 3600000)))
            && !(checkConflict (dinnerTestBlock s) blocks)) := by
    unfold findDinnerSlot
    rw [parseTime_2400, dinnerGo_eq, hlist]
  refine ⟨heq, fun t ht => ?_⟩
  rw [heq] at ht
  exact List.mem_of_find?_eq_some ht

/-- C5 witness: with an empty working set the first candidate, 21:00, is
returned, and it belongs to the candidate list. -/
theorem spec_c5_witness :
    findDinnerSlot 0 [] = some 75600000 ∧ (75600000 : Int) ∈ dinnerTimes 0 := by
  exact ⟨by decide, (spec_c5_findDinnerSlot 0 []).2 75600000 (by decide)⟩

/-! ## Conflict-freedom machinery -/

theorem hasOverlap_symm (s1 e1 s2 e2 : Option Int) :
    hasOverlap s1 e1 s2 e2 = hasOverlap s2 e2 s1 e1 := by
  unfold hasOverlap
  rw [Bool.and_comm]

theorem checkConflict_false_iff {b : ScheduleBlock} {blocks : List ScheduleBlock} :
    checkConflict b blocks = false
      ↔ ∀ x ∈ blocks, hasOverlap b.start b.endTime x.start x.endTime = false := by
  simp [checkConflict, List.any_eq_false]

theorem checkConflict_append (b : ScheduleBlock) (l1 l2 : List ScheduleBlock) :
    checkConflict b (l1 ++ l2) = (checkConflict b l1 || checkConflict b l2) := by
  unfold checkConflict
  rw [List.any_append]

theorem checkConflict_fields (b1 b2 : ScheduleBlock) (blocks : List ScheduleBlock)
    (hs : b1.start = b2.start) (he : b1.endTime = b2.endTime) :
    checkConflict b1 blocks = checkConflict b2 blocks := by
  unfold checkConflict
  rw [hs, he]

theorem noMutualOverlap_append_of {blocks : List ScheduleBlock} {b : ScheduleBlock}
    (hn : noMutualOverlap blocks = true) (hc : checkConflict b blocks = false) :
    noMutualOverlap (blocks ++ [b]) = true := by
  induction blocks with
  | nil =>
    simp [noMutualOverlap, checkConflict]
  | cons x xs ih =>
    rw [checkConflict_false_iff] at hc
    simp only [noMutualOverlap, Bool.and_eq_true, Bool.not_eq_true'] at hn
    have hx : hasOverlap b.start b.endTime x.start x.endTime = false :=
      hc x (by simp)
    have hxs : checkConflict b xs = false := by
      rw [checkConflict_false_iff]
      exact fun y hy => hc y (by simp [hy])
    rw [List.cons_append]
    simp only [noMutualOverlap, Bool.and_eq_true, Bool.not_eq_true']
    refine ⟨?_, ih hn.2 hxs⟩
    rw [checkConflict_append]
    have h1 : checkConflict x [b] = false := by
      simp [checkConflict, hasOverlap_symm x.start x.endTime b.start b.endTime, hx]
    rw [hn.1, h1]
    rfl

/-! ## placeLoop lemmas -/

theorem placeLoopF_none {fuel : Nat} {dayEnd : Int} {task : Task} {t : Int}
    {blocks : List ScheduleBlock} {t2 : Int}
    (h : placeLoopF fuel dayEnd task t blocks = (none, t2)) :
    t ≤ t2 ∧ (t2 - t) % 900000 = 0 := by
  induction fuel generalizing t with
  | zero =>
    simp only [placeLoopF, Prod.mk.injEq] at h
    omega
  | succ n ih =>
    unfold placeLoopF at h
    dsimp only at h
    split at h
    · split at h
      · simp only [Prod.mk.injEq] at h
        omega
      · split at h
        · have := ih h
          omega
        · simp at h
    · simp only [Prod.mk.injEq] at h
      omega

theorem placeLoopF_some {fuel : Nat} {dayEnd : Int} {task : Task} {t : Int}
    {blocks : List ScheduleBlock} {s e t2 : Int}
    (h : placeLoopF fuel dayEnd task t blocks = (some (s, e), t2)) :
    t ≤ s ∧ (s - t) % 900000 = 0 ∧ e = s + task.minutes * 60000 ∧ t2 = e
    ∧ e ≤ dayEnd ∧ s < dayEnd
    ∧ checkConflict (taskBlock task s e) blocks = false := by
  induction fuel generalizing t with
  | zero => simp [placeLoopF] at h
  | succ n ih =>
    unfold placeLoopF at h
    dsimp only at h
    split at h
    · split at h
      · simp at h
      · split at h
        · obtain ⟨a, b, c, d, e', f, g⟩ := ih h
          exact ⟨by omega, by omega, c, d, e', f, g⟩
        · rename_i hlt hle hcc
          simp only [Prod.mk.injEq, Option.some.injEq] at h
          obtain ⟨⟨hs, he⟩, ht2⟩ := h
          subst hs
          subst he
          refine ⟨le_refl _, by omega, rfl, by omega, by omega, hlt, ?_⟩
          simpa using hcc
    · simp at h

theorem placeLoop_none {dayEnd : Int} {task : Task} {t : Int}
    {blocks : List ScheduleBlock} {t2 : Int}
    (h : placeLoop dayEnd task t blocks = (none, t2)) :
    t ≤ t2 ∧ (t2 - t) % 900000 = 0 :=
  placeLoopF_none h

theorem placeLoop_some {dayEnd : Int} {task : Task} {t : Int}
    {blocks : List ScheduleBlock} {s e t2 : Int}
    (h : placeLoop dayEnd task t blocks = (some (s, e), t2)) :
    t ≤ s ∧ (s - t) % 900000 = 0 ∧ e = s + task.minutes * 60000 ∧ t2 = e
    ∧ e ≤ dayEnd ∧ s < dayEnd
    ∧ checkConflict (taskBlock task s e) blocks = false :=
  placeLoopF_some h

theorem placeLoopF_irrel {f1 f2 : Nat} {dayEnd : Int} {task : Task} {t : Int}
    {blocks : List ScheduleBlock}
    (h1 : (dayEnd - t).toNat < f1) (h2 : (dayEnd - t).toNat < f2) :
    placeLoopF f1 dayEnd task t blocks = placeLoopF f2 dayEnd task t blocks := by
  induction f1 generalizing f2 t with
  | zero => omega
  | succ n ih =>
    match f2 with
    | 0 => omega
    | m + 1 =>
      unfold placeLoopF
      dsimp only
      split
      · split
        · rfl
        · split
          · exact ih (by omega) (by omega)
          · rfl
      · rfl

/-- Fidelity of the fuel encoding: `placeLoop` satisfies exactly the
recurrence of the source `while` loop. -/
theorem placeLoop_unfold (dayEnd : Int) (task : Task) (t : Int)
    (blocks : List ScheduleBlock) :
    placeLoop dayEnd task t blocks =
      if t < dayEnd then
        if dayEnd < t + task.minutes * 60000 then (none, t)
        else if checkConflict (taskBlock task t (t + task.minutes * 60000)) blocks then
          placeLoop dayEnd task (t + 900000) blocks
        else (some (t, t + task.minutes * 60000), t + task.minutes * 60000)
      else (none, t) := by
  unfold placeLoop
  rw [show placeLoopF ((dayEnd - t).toNat + 1) dayEnd task t blocks =
      if t < dayEnd then
        if dayEnd < t + task.minutes * 60000 then (none, t)
        else if checkConflict (taskBlock task t (t + task.minutes * 60000)) blocks then
          placeLoopF ((dayEnd - t).toNat) dayEnd task (t + 900000) blocks
        else (some (t, t + task.minutes * 60000), t + task.minutes * 60000)
      else (none, t) from rfl]
  split
  · split
    · rfl
    · split
      · exact placeLoopF_irrel (by omega) (by omega)
      · rfl
  · rfl

/-! ## backlogSweep lemmas -/

/-- The start times of the placed outcomes, in processing order. -/
def placedStarts (l : List (Task × Option (Int × Int))) : List Int :=
  l.filterMap fun p => Option.map Prod.fst p.2

theorem placedStarts_mem {l : List (Task × Option (Int × Int))} {s : Int} :
    s ∈ placedStarts l ↔ ∃ task e, (task, some (s, e)) ∈ l := by
  simp only [placedStarts, List.mem_filterMap]
  constructor
  · rintro ⟨⟨task, o⟩, hmem, ho⟩
    match o with
    | some (s', e) =>
      simp only [Option.map_some', Option.some.injEq] at ho
      exact ⟨task, e, by simpa [ho] using hmem⟩
    | none => simp at ho
  · rintro ⟨task, e, hmem⟩
    exact ⟨(task, some (s, e)), hmem, rfl⟩

theorem backlogSweep_cursor_mono (ts : List Task) (dayEnd : Int) :
    ∀ (t : Int) (blocks : List ScheduleBlock) (result : List TimeSlot)
      (warnings : List String), (∀ x ∈ ts, 0 ≤ x.minutes) →
      t ≤ (backlogSweep dayEnd t blocks result warnings ts).cursor := by
  induction ts with
  | nil => intro t blocks result warnings _; exact le_refl t
  | cons task rest ih =>
    intro t blocks result warnings hpos
    cases hp : placeLoop dayEnd task t blocks with
    | mk o t2 =>
      cases o with
      | none =>
        have h1 := placeLoop_none hp
        have h2 := ih t2 blocks result (warnings ++ [taskWarning task])
          (fun x hx => hpos x (by simp [hx]))
        simp only [backlogSweep, hp]
        omega
      | some se =>
        obtain ⟨s0, e0⟩ := se
        have h1 := placeLoop_some hp
        have hm : 0 ≤ task.minutes := hpos task (by simp)
        have h2 := ih e0 (blocks ++ [taskBlock task s0 e0])
          (result ++ [taskSlot task s0 e0]) warnings
          (fun x hx => hpos x (by simp [hx]))
        simp only [backlogSweep, hp]
        have : t ≤ e0 := by nlinarith [h1.1, h1.2.2.1]
        omega

theorem backlogSweep_outcomes_fst (ts : List Task) (dayEnd : Int) :
    ∀ (t : Int) (blocks : List ScheduleBlock) (result : List TimeSlot)
      (warnings : List String),
      (backlogSweep dayEnd t blocks result warnings ts).outcomes.map Prod.fst = ts := by
  induction ts with
  | nil => intro t blocks result warnings; rfl
  | cons task rest ih =>
    intro t blocks result warnings
    cases hp : placeLoop dayEnd task t blocks with
    | mk o t2 =>
      cases o with
      | none => simp [backlogSweep, hp, ih]
      | some se =>
        obtain ⟨s0, e0⟩ := se
        simp [backlogSweep, hp, ih]

theorem backlogSweep_placed (ts : List Task) (dayEnd : Int) :
    ∀ (t : Int) (blocks : List ScheduleBlock) (result : List TimeSlot)
      (warnings : List String), (∀ x ∈ ts, 0 ≤ x.minutes) →
      ∀ task s e, (task, some (s, e)) ∈ (backlogSweep dayEnd t blocks result warnings ts).outcomes →
        t ≤ s ∧ e ≤ dayEnd ∧ e = s + task.minutes * 60000 := by
  induction ts with
  | nil => intro t blocks result warnings _ task s e h; simp [backlogSweep] at h
  | cons task0 rest ih =>
    intro t blocks result warnings hpos task s e hmem
    cases hp : placeLoop dayEnd task0 t blocks with
    | mk o t2 =>
      cases o with
      | none =>
        have h1 := placeLoop_none hp
        simp only [backlogSweep, hp, List.mem_cons] at hmem
        rcases hmem with heq | hmem
        · simp at heq
        · have := ih t2 blocks result (warnings ++ [taskWarning task0])
            (fun x hx => hpos x (by simp [hx])) task s e hmem
          exact ⟨by omega, this.2⟩
      | some se =>
        obtain ⟨s0, e0⟩ := se
        have h1 := placeLoop_some hp
        have hm : 0 ≤ task0.minutes := hpos task0 (by simp)
        have hte : t ≤ e0 := by nlinarith [h1.1, h1.2.2.1]
        simp only [backlogSweep, hp, List.mem_cons] at hmem
        rcases hmem with heq | hmem
        · simp only [Prod.mk.injEq, Option.some.injEq] at heq
          obtain ⟨rfl, rfl, rfl⟩ := heq
          exact ⟨h1.1, h1.2.2.2.2.1, h1.2.2.1⟩
        · have := ih e0 (blocks ++ [taskBlock task0 s0 e0])
            (result ++ [taskSlot task0 s0 e0]) warnings
            (fun x hx => hpos x (by simp [hx])) task s e hmem
          exact ⟨by omega, this.2⟩

theorem backlogSweep_starts_sorted (ts : List Task) (dayEnd : Int) :
    ∀ (t : Int) (blocks : List ScheduleBlock) (result : List TimeSlot)
      (warnings : List String), (∀ x ∈ ts, 0 ≤ x.minutes) →
      (placedStarts (backlogSweep dayEnd t blocks result warnings ts).outcomes).Pairwise (· ≤ ·) := by
  induction ts with
  | nil => intro t blocks result warnings _; simp [backlogSweep, placedStarts]
  | cons task0 rest ih =>
    intro t blocks result warnings hpos
    have hrest : ∀ x ∈ rest, 0 ≤ x.minutes := fun x hx => hpos x (by simp [hx])
    cases hp : placeLoop dayEnd task0 t blocks with
    | mk o t2 =>
      cases o with
      | none =>
        simp only [backlogSweep, hp]
        simpa [placedStarts] using ih t2 blocks result (warnings ++ [taskWarning task0]) hrest
      | some se =>
        obtain ⟨s0, e0⟩ := se
        have h1 := placeLoop_some hp
        have hm : 0 ≤ task0.minutes := hpos task0 (by simp)
        have hse : s0 ≤ e0 := by nlinarith [h1.2.2.1]
        simp only [backlogSweep, hp]
        have hsorted := ih e0 (blocks ++ [taskBlock task0 s0 e0])
          (result ++ [taskSlot task0 s0 e0]) warnings hrest
        have hplaced := backlogSweep_placed rest dayEnd e0 (blocks ++ [taskBlock task0 s0 e0])
          (result ++ [taskSlot task0 s0 e0]) warnings hrest
        show (placedStarts ((task0, some (s0, e0)) ::
          (backlogSweep dayEnd e0 (blocks ++ [taskBlock task0 s0 e0])
            (result ++ [taskSlot task0 s0 e0]) warnings rest).outcomes)).Pairwise (· ≤ ·)
        rw [show placedStarts ((task0, some (s0, e0)) ::
            (backlogSweep dayEnd e0 (blocks ++ [taskBlock task0 s0 e0])
              (result ++ [taskSlot task0 s0 e0]) warnings rest).outcomes)
          = s0 :: placedStarts (backlogSweep dayEnd e0 (blocks ++ [taskBlock task0 s0 e0])
              (result ++ [taskSlot task0 s0 e0]) warnings rest).outcomes from rfl]
        refine List.Pairwise.cons ?_ hsorted
        intro s' hs'
        obtain ⟨task', e', hmem'⟩ := placedStarts_mem.mp hs'
        have := hplaced task' s' e' hmem'
        omega

theorem backlogSweep_noMutualOverlap (ts : List Task) (dayEnd : Int) :
    ∀ (t : Int) (blocks : List ScheduleBlock) (result : List TimeSlot)
      (warnings : List String), noMutualOverlap blocks = true →
      noMutualOverlap (backlogSweep dayEnd t blocks result warnings ts).blocks = true := by
  induction ts with
  | nil => intro t blocks result warnings hn; exact hn
  | cons task0 rest ih =>
    intro t blocks result warnings hn
    cases hp : placeLoop dayEnd task0 t blocks with
    | mk o t2 =>
      cases o with
      | none =>
        simp only [backlogSweep, hp]
        exact ih t2 blocks result (warnings ++ [taskWarning task0]) hn
      | some se =>
        obtain ⟨s0, e0⟩ := se
        have h1 := placeLoop_some hp
        simp only [backlogSweep, hp]
        exact ih e0 _ _ warnings (noMutualOverlap_append_of hn h1.2.2.2.2.2.2)

theorem backlogSweep_result_mono (ts : List Task) (dayEnd : Int) :
    ∀ (t : Int) (blocks : List ScheduleBlock) (result : List TimeSlot)
      (warnings : List String) (x : TimeSlot), x ∈ result →
      x ∈ (backlogSweep dayEnd t blocks result warnings ts).result := by
  induction ts with
  | nil => intro t blocks result warnings x hx; exact hx
  | cons task0 rest ih =>
    intro t blocks result warnings x hx
    cases hp : placeLoop dayEnd task0 t blocks with
    | mk o t2 =>
      cases o with
      | none =>
        simp only [backlogSweep, hp]
        exact ih t2 blocks result (warnings ++ [taskWarning task0]) x hx
      | some se =>
        obtain ⟨s0, e0⟩ := se
        simp only [backlogSweep, hp]
        exact ih e0 _ _ warnings x (by simp [hx])

theorem backlogSweep_warnings_mono (ts : List Task) (dayEnd : Int) :
    ∀ (t : Int) (blocks : List ScheduleBlock) (result : List TimeSlot)
      (warnings : List String) (w : String), w ∈ warnings →
      w ∈ (backlogSweep dayEnd t blocks result warnings ts).warnings := by
  induction ts with
  | nil => intro t blocks result warnings w hw; exact hw
  | cons task0 rest ih =>
    intro t blocks result warnings w hw
    cases hp : placeLoop dayEnd task0 t blocks with
    | mk o t2 =>
      cases o with
      | none =>
        simp only [backlogSweep, hp]
        exact ih t2 blocks result (warnings ++ [taskWarning task0]) w (by simp [hw])
      | some se =>
        obtain ⟨s0, e0⟩ := se
        simp only [backlogSweep, hp]
        exact ih e0 _ _ warnings w hw

theorem backlogSweep_total (ts : List Task) (dayEnd : Int) :
    ∀ (t : Int) (blocks : List ScheduleBlock) (result : List TimeSlot)
      (warnings : List String) (task : Task), task ∈ ts →
      (∃ s e : Int, taskSlot task s e ∈ (backlogSweep dayEnd t blocks result warnings ts).result)
      ∨ taskWarning task ∈ (backlogSweep dayEnd t blocks result warnings ts).warnings := by
  induction ts with
  | nil => intro t blocks result warnings task h; simp at h
  | cons task0 rest ih =>
    intro t blocks result warnings task hmem
    cases hp : placeLoop dayEnd task0 t blocks with
    | mk o t2 =>
      cases o with
      | none =>
        rcases List.mem_cons.mp hmem with rfl | hmem'
        · right
          simp only [backlogSweep, hp]
          exact backlogSweep_warnings_mono rest dayEnd t2 blocks result
            (warnings ++ [taskWarning task]) (taskWarning task) (by simp)
        · simp only [backlogSweep, hp]
          exact ih t2 blocks result (warnings ++ [taskWarning task0]) task hmem'
      | some se =>
        obtain ⟨s0, e0⟩ := se
        rcases List.mem_cons.mp hmem with rfl | hmem'
        · left
          refine ⟨s0, e0, ?_⟩
          simp only [backlogSweep, hp]
          exact backlogSweep_result_mono rest dayEnd e0 _
            (result ++ [taskSlot task s0 e0]) warnings (taskSlot task s0 e0) (by simp)
        · simp only [backlogSweep, hp]
          exact ih e0 _ _ warnings task hmem'

theorem backlogSweep_blocks_provenance (ts : List Task) (dayEnd : Int) :
    ∀ (t : Int) (blocks : List ScheduleBlock) (result : List TimeSlot)
      (warnings : List String) (b : ScheduleBlock),
      b ∈ (backlogSweep dayEnd t blocks result warnings ts).blocks →
      b ∈ blocks ∨ ∃ tk ∈ ts, ∃ s e : Int, b = taskBlock tk s e := by
  induction ts with
  | nil => intro t blocks result warnings b hb; exact Or.inl hb
  | cons task0 rest ih =>
    intro t blocks result warnings b hb
    cases hp : placeLoop dayEnd task0 t blocks with
    | mk o t2 =>
      cases o with
      | none =>
        simp only [backlogSweep, hp] at hb
        rcases ih t2 blocks result (warnings ++ [taskWarning task0]) b hb with h | ⟨tk, htk, s, e, he⟩
        · exact Or.inl h
        · exact Or.inr ⟨tk, by simp [htk], s, e, he⟩
      | some se =>
        obtain ⟨s0, e0⟩ := se
        simp only [backlogSweep, hp] at hb
        rcases ih e0 _ _ warnings b hb with h | ⟨tk, htk, s, e, he⟩
        · rcases List.mem_append.mp h with h' | h'
          · exact Or.inl h'
          · exact Or.inr ⟨task0, by simp, s0, e0, by simpa using h'⟩
        · exact Or.inr ⟨tk, by simp [htk], s, e, he⟩

/-! ## replyLoop lemmas -/

theorem replyBlockAt_type (planStart endOfDay t : Int) (blocks : List ScheduleBlock) :
    (replyBlockAt planStart endOfDay t blocks).type = "reply" := by
  unfold replyBlockAt
  split
  · cases findAvailableSlot t 15 blocks (some planStart) (some endOfDay) with
    | none => rfl
    | some s => rfl
  · rfl

theorem replyLoopF_noMutualOverlap (fuel : Nat) :
    ∀ (planStart endOfDay t : Int) (blocks : List ScheduleBlock) (result : List TimeSlot),
      noMutualOverlap blocks = true →
      noMutualOverlap (replyLoopF fuel planStart endOfDay t blocks result).1 = true := by
  induction fuel with
  | zero => intro _ _ _ _ _ hn; exact hn
  | succ n ih =>
    intro planStart endOfDay t blocks result hn
    unfold replyLoopF
    dsimp only
    split
    · split
      · exact ih planStart endOfDay (t + 10800000) blocks result hn
      · rename_i hcc
        refine ih planStart endOfDay (t + 10800000) _ _ ?_
        exact noMutualOverlap_append_of hn (by simpa using hcc)
    · exact hn

theorem replyLoopF_result_mono (fuel : Nat) :
    ∀ (planStart endOfDay t : Int) (blocks : List ScheduleBlock) (result : List TimeSlot)
      (x : TimeSlot), x ∈ result →
      x ∈ (replyLoopF fuel planStart endOfDay t blocks result).2 := by
  induction fuel with
  | zero => intro _ _ _ _ _ _ hx; exact hx
  | succ n ih =>
    intro planStart endOfDay t blocks result x hx
    unfold replyLoopF
    dsimp only
    split
    · split
      · exact ih planStart endOfDay (t + 10800000) blocks result x hx
      · exact ih planStart endOfDay (t + 10800000) _ _ x (by simp [hx])
    · exact hx

theorem replyLoopF_blocks_provenance (fuel : Nat) :
    ∀ (planStart endOfDay t : Int) (blocks : List ScheduleBlock) (result : List TimeSlot)
      (b : ScheduleBlock), b ∈ (replyLoopF fuel planStart endOfDay t blocks result).1 →
      b ∈ blocks ∨ b.type = "reply" := by
  induction fuel with
  | zero => intro _ _ _ _ _ _ hb; exact Or.inl hb
  | succ n ih =>
    intro planStart endOfDay t blocks result b hb
    unfold replyLoopF at hb
    dsimp only at hb
    split at hb
    · split at hb
      · exact ih planStart endOfDay (t + 10800000) blocks result b hb
      · rcases ih planStart endOfDay (t + 10800000) _ _ b hb with h | h
        · rcases List.mem_append.mp h with h' | h'
          · exact Or.inl h'
          · right
            rw [show b = replyBlockAt planStart endOfDay t blocks by simpa using h']
            exact replyBlockAt_type planStart endOfDay t blocks
        · exact Or.inr h
    · exact Or.inl hb

theorem replyLoopF_irrel {f1 f2 : Nat} {planStart endOfDay t : Int}
    {blocks : List ScheduleBlock} {result : List TimeSlot}
    (h1 : (endOfDay - t).toNat < f1) (h2 : (endOfDay - t).toNat < f2) :
    replyLoopF f1 planStart endOfDay t blocks result
      = replyLoopF f2 planStart endOfDay t blocks result := by
  induction f1 generalizing f2 t blocks result with
  | zero => omega
  | succ n ih =>
    match f2 with
    | 0 => omega
    | m + 1 =>
      unfold replyLoopF
      dsimp only
      split
      · split
        · exact ih (by omega) (by omega)
        · exact ih (by omega) (by omega)
      · rfl

/-- Fidelity of the fuel encoding: `replyLoop` satisfies exactly the
recurrence of the source `while` loop. -/
theorem replyLoop_unfold (planStart endOfDay t : Int) (blocks : List ScheduleBlock)
    (result : List TimeSlot) :
    replyLoop planStart endOfDay t blocks result =
      if t < endOfDay then
        if checkConflict (replyBlockAt planStart endOfDay t blocks) blocks then
          replyLoop planStart endOfDay (t + 10800000) blocks result
        else
          replyLoop planStart endOfDay (t + 10800000)
            (blocks ++ [replyBlockAt planStart endOfDay t blocks])
            (result ++ [replySlotOf (replyBlockAt planStart endOfDay t blocks)])
      else (blocks, result) := by
  unfold replyLoop
  rw [show replyLoopF ((endOfDay - t).toNat + 1) planStart endOfDay t blocks result =
      if t < endOfDay then
        if checkConflict (replyBlockAt planStart endOfDay t blocks) blocks then
          replyLoopF ((endOfDay - t).toNat) planStart endOfDay (t + 10800000) blocks result
        else
          replyLoopF ((endOfDay - t).toNat) planStart endOfDay (t + 10800000)
            (blocks ++ [replyBlockAt planStart endOfDay t blocks])
            (result ++ [replySlotOf (replyBlockAt planStart endOfDay t blocks)])
      else (blocks, result) from rfl]
  split
  · split
    · exact replyLoopF_irrel (by omega) (by omega)
    · exact replyLoopF_irrel (by omega) (by omega)
  · rfl

/-! ## Sorting lemmas -/

theorem mem_insertSlot {a x : TimeSlot} {l : List TimeSlot} :
    x ∈ insertSlot a l ↔ x = a ∨ x ∈ l := by
  induction l with
  | nil => simp [insertSlot]
  | cons b bs ih =>
    unfold insertSlot
    split
    · simp
    · simp only [List.mem_cons, ih]
      tauto

theorem mem_sortSchedule {x : TimeSlot} {l : List TimeSlot} :
    x ∈ sortSchedule l ↔ x ∈ l := by
  induction l with
  | nil => simp [sortSchedule]
  | cons a rest ih =>
    simp only [sortSchedule, mem_insertSlot, ih, List.mem_cons]

/-! ## dinner stage lemmas -/

theorem dinnerGo_conflict_free {base : Int} {M : Option Int} {blocks : List ScheduleBlock}
    {cs : List String} {s : Int} (h : dinnerGo base M blocks cs = some s) :
    checkConflict (dinnerTestBlock s) blocks = false := by
  induction cs with
  | nil => simp [dinnerGo] at h
  | cons c rest ih =>
    cases hp : parseTime c base with
    | none =>
      simp only [dinnerGo, hp] at h
      exact ih h
    | some start =>
      simp only [dinnerGo, hp] at h
      split at h
      · exact ih h
      · split at h
        · exact ih h
        · rename_i hcc
          simp only [Option.some.injEq] at h
          subst h
          simpa using hcc

theorem findDinnerSlot_conflict_free {base : Int} {blocks : List ScheduleBlock} {s : Int}
    (h : findDinnerSlot base blocks = some s) :
    checkConflict (dinnerTestBlock s) blocks = false :=
  dinnerGo_conflict_free h

/-! ## lunch and dinner stage lemmas for the generate pipeline -/

theorem lunchStage_noMutualOverlap {now planStart endOfDay : Int}
    {blocks : List ScheduleBlock} {result : List TimeSlot}
    (hn : noMutualOverlap blocks = true) :
    noMutualOverlap (lunchStage now planStart endOfDay blocks result).1 = true := by
  unfold lunchStage
  cases hf : findAvailableSlot (ceil15 (now + 21600000)) 60 blocks (some planStart) (some endOfDay) with
  | none => exact hn
  | some s =>
    have h1 := trySlot_conflict_free (findAvailableSlot_sound hf)
    have h2 : checkConflict (lunchBlock s) blocks = false := by
      rw [checkConflict_fields (lunchBlock s) (testBlock 60 s) blocks rfl
        (by norm_num [lunchBlock, testBlock])]
      exact h1
    exact noMutualOverlap_append_of hn h2

theorem lunchStage_result_mono {now planStart endOfDay : Int}
    {blocks : List ScheduleBlock} {result : List TimeSlot} {x : TimeSlot}
    (hx : x ∈ result) : x ∈ (lunchStage now planStart endOfDay blocks result).2.1 := by
  unfold lunchStage
  cases findAvailableSlot (ceil15 (now + 21600000)) 60 blocks (some planStart) (some endOfDay) with
  | none => exact hx
  | some s => simp [hx]

theorem lunchStage_total (now planStart endOfDay : Int)
    (blocks : List ScheduleBlock) (result : List TimeSlot) :
    (∃ s : Int, lunchSlot s ∈ (lunchStage now planStart endOfDay blocks result).2.1)
    ∨ lunchWarning ∈ (lunchStage now planStart endOfDay blocks result).2.2 := by
  unfold lunchStage
  cases findAvailableSlot (ceil15 (now + 21600000)) 60 blocks (some planStart) (some endOfDay) with
  | none => right; simp
  | some s => left; exact ⟨s, by simp⟩

theorem lunchStage_blocks_provenance {now planStart endOfDay : Int}
    {blocks : List ScheduleBlock} {result : List TimeSlot} {b : ScheduleBlock}
    (hb : b ∈ (lunchStage now planStart endOfDay blocks result).1) :
    b ∈ blocks ∨ b.type = "lunch" := by
  unfold lunchStage at hb
  cases hf : findAvailableSlot (ceil15 (now + 21600000)) 60 blocks (some planStart) (some endOfDay) with
  | none =>
    rw [hf] at hb
    exact Or.inl hb
  | some s =>
    rw [hf] at hb
    rcases List.mem_append.mp hb with h | h
    · exact Or.inl h
    · right
      rw [show b = lunchBlock s by simpa using h]
      rfl

theorem dinnerStage_noMutualOverlap {base : Int} {blocks : List ScheduleBlock}
    {result : List TimeSlot} {warnings : List String}
    (hn : noMutualOverlap blocks = true) :
    noMutualOverlap (dinnerStage base blocks result warnings).1 = true := by
  unfold dinnerStage
  cases hf : findDinnerSlot base blocks with
  | none => exact hn
  | some s =>
    have h1 := findDinnerSlot_conflict_free hf
    have h2 : checkConflict (dinnerBlock s) blocks = false := by
      rw [checkConflict_fields (dinnerBlock s) (dinnerTestBlock s) blocks rfl rfl]
      exact h1
    exact noMutualOverlap_append_of hn h2

theorem dinnerStage_result_mono {base : Int} {blocks : List ScheduleBlock}
    {result : List TimeSlot} {warnings : List String} {x : TimeSlot}
    (hx : x ∈ result) : x ∈ (dinnerStage base blocks result warnings).2.1 := by
  unfold dinnerStage
  cases findDinnerSlot base blocks with
  | none => exact hx
  | some s => simp [hx]

theorem dinnerStage_warnings_mono {base : Int} {blocks : List ScheduleBlock}
    {result : List TimeSlot} {warnings : List String} {w : String}
    (hw : w ∈ warnings) : w ∈ (dinnerStage base blocks result warnings).2.2 := by
  unfold dinnerStage
  cases findDinnerSlot base blocks with
  | none => simp [hw]
  | some s => exact hw

theorem dinnerStage_total (base : Int) (blocks : List ScheduleBlock)
    (result : List TimeSlot) (warnings : List String) :
    (∃ s : Int, dinnerSlot s ∈ (dinnerStage base blocks result warnings).2.1)
    ∨ dinnerWarning ∈ (dinnerStage base blocks result warnings).2.2 := by
  unfold dinnerStage
  cases findDinnerSlot base blocks with
  | none => right; simp
  | some s => left; exact ⟨s, by simp⟩

theorem dinnerStage_blocks_provenance {base : Int} {blocks : List ScheduleBlock}
    {result : List TimeSlot} {warnings : List String} {b : ScheduleBlock}
    (hb : b ∈ (dinnerStage base blocks result warnings).1) :
    b ∈ blocks ∨ b.type = "dinner" := by
  unfold dinnerStage at hb
  cases hf : findDinnerSlot base blocks with
  | none =>
    rw [hf] at hb
    exact Or.inl hb
  | some s =>
    rw [hf] at hb
    rcases List.mem_append.mp hb with h | h
    · exact Or.inl h
    · right
      rw [show b = dinnerBlock s by simpa using h]
      rfl

theorem replyLoop_noMutualOverlap {planStart endOfDay t : Int}
    {blocks : List ScheduleBlock} {result : List TimeSlot}
    (hn : noMutualOverlap blocks = true) :
    noMutualOverlap (replyLoop planStart endOfDay t blocks result).1 = true :=
  replyLoopF_noMutualOverlap _ planStart endOfDay t blocks result hn

theorem replyLoop_result_mono {planStart endOfDay t : Int}
    {blocks : List ScheduleBlock} {result : List TimeSlot} {x : TimeSlot}
    (hx : x ∈ result) : x ∈ (replyLoop planStart endOfDay t blocks result).2 :=
  replyLoopF_result_mono _ planStart endOfDay t blocks result x hx

theorem replyLoop_blocks_provenance {planStart endOfDay t : Int}
    {blocks : List ScheduleBlock} {result : List TimeSlot} {b : ScheduleBlock}
    (hb : b ∈ (replyLoop planStart endOfDay t blocks result).1) :
    b ∈ blocks ∨ b.type = "reply" :=
  replyLoopF_blocks_provenance _ planStart endOfDay t blocks result b hb

theorem mem_tasksToPlace {task : Task} {ts : List Task} (h : task ∈ ts) :
    task ∈ tasksToPlace ts := by
  unfold tasksToPlace
  rcases le_or_lt 45 task.minutes with h45 | h45
  · exact List.mem_append_left _ (List.mem_filter.mpr ⟨h, by simpa using h45⟩)
  · exact List.mem_append_right _ (List.mem_filter.mpr ⟨h, by simpa using h45⟩)

theorem mem_of_mem_tasksToPlace {task : Task} {ts : List Task}
    (h : task ∈ tasksToPlace ts) : task ∈ ts := by
  unfold tasksToPlace at h
  rcases List.mem_append.mp h with h' | h' <;> exact (List.mem_filter.mp h').1

/-! ## Claim C1 -/

/-- Fixed event 09:00–10:00 of the C1 counterexample. -/
def cexEventA : FixedEvent := { start := "09:00", endTime := "10:00", title := "会議A" }

/-- Fixed event 09:30–10:30, overlapping `cexEventA`. -/
def cexEventB : FixedEvent := { start := "09:30", endTime := "10:30", title := "会議B" }

/-- C1 (counterexample): the claim quantifies over every input list of fixed
events, but fixed events are committed verbatim with no conflict check
against each other: with the two overlapping fixed events 09:00–10:00 and
09:30–10:30 the final working set of a run contains two overlapping
committed blocks. -/
theorem spec_c1_counterexample :
    noMutualOverlap (generate 28800000 [cexEventA, cexEventB] []).blocks = false
    ∧ fixedBlock 0 cexEventA ∈ (generate 28800000 [cexEventA, cexEventB] []).blocks
    ∧ fixedBlock 0 cexEventB ∈ (generate 28800000 [cexEventA, cexEventB] []).blocks
    ∧ hasOverlap (fixedBlock 0 cexEventA).start (fixedBlock 0 cexEventA).endTime
        (fixedBlock 0 cexEventB).start (fixedBlock 0 cexEventB).endTime = true := by
  refine ⟨by decide, by decide, by decide, by decide⟩

/-- C1 (amended): provided the caller's fixed events parse to pairwise
non-overlapping intervals, the working set of one `generate` run is mutually
conflict-free at every point (the set grows append-only, and every
non-fixed commit is guarded by `checkConflict`); in particular the final
working set is mutually conflict-free. -/
theorem spec_c1_amended (now : Int) (fx : List FixedEvent) (ts : List Task)
    (hfx : noMutualOverlap (fx.map (fixedBlock (dayFloor now))) = true) :
    noMutualOverlap (generate now fx ts).blocks = true := by
  unfold generate
  dsimp only
  exact backlogSweep_noMutualOverlap _ _ _ _ _ _
    (dinnerStage_noMutualOverlap (lunchStage_noMutualOverlap (replyLoop_noMutualOverlap hfx)))

/-- C1 witness: a run over one fixed event keeps the working set
conflict-free. -/
theorem spec_c1_witness :
    noMutualOverlap ([cexEventA].map (fixedBlock (dayFloor 28800000))) = true
    ∧ noMutualOverlap (generate 28800000 [cexEventA] []).blocks = true :=
  ⟨by decide, spec_c1_amended 28800000 [cexEventA] [] (by decide)⟩

/-! ## Claim C2 -/

/-- C2: `generate` is a total function of its inputs (its loops are
structurally recursive in the embedding, with fuel bounds proved exact by
`replyLoop_unfold` and `placeLoop_unfold`), so every run returns a complete
result; moreover every placement failure surfaces only as a warning string:
lunch and dinner each either contribute a slot or their warning, and every
backlog task either contributes a slot or its warning. -/
theorem spec_c2_total (now : Int) (fx : List FixedEvent) (ts : List Task) :
    ((∃ s : Int, lunchSlot s ∈ (generate now fx ts).schedule)
      ∨ lunchWarning ∈ (generate now fx ts).warnings)
    ∧ ((∃ s : Int, dinnerSlot s ∈ (generate now fx ts).schedule)
      ∨ dinnerWarning ∈ (generate now fx ts).warnings)
    ∧ ∀ task ∈ ts, (∃ s e : Int, taskSlot task s e ∈ (generate now fx ts).schedule)
      ∨ taskWarning task ∈ (generate now fx ts).warnings := by
  unfold generate
  dsimp only
  set planStart := ceil15 (now + 900000) with hps
  set endOfDay := dayFloor now + 72000000 with heod
  set br := replyLoop planStart endOfDay planStart (fx.map (fixedBlock (dayFloor now)))
    (fx.map fixedSlot) with hbr
  set lr := lunchStage now planStart endOfDay br.1 br.2 with hlr
  set dr := dinnerStage (dayFloor now) lr.1 lr.2.1 lr.2.2 with hdr
  refine ⟨?_, ?_, ?_⟩
  · rcases lunchStage_total now planStart endOfDay br.1 br.2 with ⟨s, hs⟩ | hw
    · left
      refine ⟨s, mem_sortSchedule.mpr ?_⟩
      exact backlogSweep_result_mono _ _ _ _ _ _ _
        (List.mem_append_left _ (dinnerStage_result_mono hs))
    · right
      exact backlogSweep_warnings_mono _ _ _ _ _ _ _ (dinnerStage_warnings_mono hw)
  · rcases dinnerStage_total (dayFloor now) lr.1 lr.2.1 lr.2.2 with ⟨s, hs⟩ | hw
    · left
      refine ⟨s, mem_sortSchedule.mpr ?_⟩
      exact backlogSweep_result_mono _ _ _ _ _ _ _ (List.mem_append_left _ hs)
    · right
      exact backlogSweep_warnings_mono _ _ _ _ _ _ _ hw
  · intro task htask
    rcases backlogSweep_total (tasksToPlace ts) endOfDay planStart dr.1
        (dr.2.1 ++ [familySlot (dayFloor now)]) dr.2.2 task (mem_tasksToPlace htask) with
      ⟨s, e, hs⟩ | hw
    · exact Or.inl ⟨s, e, mem_sortSchedule.mpr hs⟩
    · exact Or.inr hw

/-- Deep-work task of the C7 counterexample (later in the input). -/
def cexTaskDeep : Task := { title := "B", category := "now", minutes := 60, priority := "high" }

/-- Light-work task of the C7 counterexample (earlier in the input). -/
def cexTaskLight : Task := { title := "A", category := "now", minutes := 30, priority := "high" }

/-- C2 witness: in a concrete run the sole backlog task is placed or warned. -/
theorem spec_c2_witness :
    (∃ s e : Int, taskSlot cexTaskDeep s e ∈ (generate 28800000 [] [cexTaskDeep]).schedule)
    ∨ taskWarning cexTaskDeep ∈ (generate 28800000 [] [cexTaskDeep]).warnings :=
  (spec_c2_total 28800000 [] [cexTaskDeep]).2.2 cexTaskDeep (by decide)

/-! ## Claim C3 -/

/-- A fixed block 19:00–19:50 that forces conflict steps in the C3
counterexample. -/
def cexBusyBlock : ScheduleBlock :=
  { start := some 68400000, endTime := some 71400000,
    title := "x", type := "fixed", minutes := some 50 }

/-- A 30-minute backlog task that cannot be placed from cursor 19:00 before
the 20:00 day end when 19:00–19:50 is occupied. -/
def cexTask30 : Task := { title := "レポート", category := "now", minutes := 30, priority := "high" }

/-- C3 (counterexample): the claim says the cursor has the same value after
processing a failed item as before.  From cursor 19:00, with 19:00–19:50
occupied and `dayEnd` 20:00, the 30-minute item fails — warning emitted, no
block committed — but the conflict scan has advanced the shared cursor from
19:00 to 19:45. -/
theorem spec_c3_counterexample :
    (backlogSweep 72000000 68400000 [cexBusyBlock] [] [] [cexTask30]).warnings
      = [taskWarning cexTask30]
    ∧ (backlogSweep 72000000 68400000 [cexBusyBlock] [] [] [cexTask30]).blocks
      = [cexBusyBlock]
    ∧ (backlogSweep 72000000 68400000 [cexBusyBlock] [] [] [cexTask30]).cursor = 71100000
    ∧ (71100000 : Int) ≠ 68400000 := by
  refine ⟨by decide, by decide, by decide, by decide⟩

/-- C3 (amended): for an unplaceable backlog item the sweep emits the warning
naming the item and its duration, commits no block for it, and moves to the
next item; the cursor is left where the failed scan stopped — it moves only
by whole 15-minute conflict steps, never to a block end, and is unchanged
when already the first candidate overruns `dayEnd`. -/
theorem spec_c3_amended (dayEnd : Int) (task : Task) (rest : List Task) (t : Int)
    (blocks : List ScheduleBlock) (result : List TimeSlot) (warnings : List String)
    (t2 : Int) (hfail : placeLoop dayEnd task t blocks = (none, t2)) :
    backlogSweep dayEnd t blocks result warnings (task :: rest)
      = { backlogSweep dayEnd t2 blocks result (warnings ++ [taskWarning task]) rest with
          outcomes := (task, none) ::
            (backlogSweep dayEnd t2 blocks result (warnings ++ [taskWarning task]) rest).outcomes }
    ∧ t ≤ t2 ∧ (t2 - t) % 900000 = 0
    ∧ (dayEnd < t + task.minutes * 60000 → t2 = t) := by
  have hn := placeLoop_none hfail
  refine ⟨by simp [backlogSweep, hfail], hn.1, hn.2, fun hover => ?_⟩
  rw [placeLoop_unfold] at hfail
  by_cases hlt : t < dayEnd
  · rw [if_pos hlt, if_pos hover] at hfail
    simp only [Prod.mk.injEq] at hfail
    omega
  · rw [if_neg hlt] at hfail
    simp only [Prod.mk.injEq] at hfail
    omega

/-- C3 witness: concrete instance of the amended claim at the counterexample
input. -/
theorem spec_c3_witness :
    (68400000 : Int) ≤ 71100000 ∧ ((71100000 : Int) - 68400000) % 900000 = 0 := by
  have h := spec_c3_amended 72000000 cexTask30 [] 68400000 [cexBusyBlock] [] [] 71100000
    (by decide)
  exact ⟨h.2.1, h.2.2.1⟩

/-! ## Claim C7 -/

/-- C7 (counterexample): the claim asserts order preservation for any two
equal-priority items of the input backlog, but the sweep processes all
deep-work items (≥ 45 min) before all light-work items: with the input
`[A (30 min), B (60 min)]`, both priority `"high"`, the later item B is
placed 08:30–09:30 and the earlier item A only 09:30–10:00, i.e. strictly
later. -/
theorem spec_c7_counterexample :
    (generate 28800000 [] [cexTaskLight, cexTaskDeep]).outcomes
      = [(cexTaskDeep, some (30600000, 34200000)),
         (cexTaskLight, some (34200000, 36000000))]
    ∧ cexTaskLight.priority = cexTaskDeep.priority
    ∧ ¬ (34200000 : Int) ≤ 30600000 := by
  refine ⟨by decide, by decide, by decide⟩

/-- C7 (amended): order preservation holds for two equal-priority items of
the same duration class (both ≥ 45 min or both < 45 min): the processing
order preserves their relative input order, `generate`'s outcomes follow the
processing order entry by entry, and whenever two entries of the outcome
list are both placed, the earlier-processed entry starts at an equal-or-earlier
time. -/
theorem spec_c7_amended (ts pre mid post : List Task) (a b : Task)
    (hts : ts = pre ++ a :: (mid ++ b :: post))
    (hprio : a.priority = b.priority)
    (hclass : 45 ≤ a.minutes ↔ 45 ≤ b.minutes)
    (hpos : ∀ x ∈ ts, 0 < x.minutes) :
    (∃ P1 P2 P3 : List Task, tasksToPlace ts = P1 ++ a :: (P2 ++ b :: P3))
    ∧ (∀ (now : Int) (fx : List FixedEvent),
        (generate now fx ts).outcomes.map Prod.fst = tasksToPlace ts)
    ∧ ∀ (dayEnd t : Int) (blocks : List ScheduleBlock) (result : List TimeSlot)
        (warnings : List String) (O1 O2 O3 : List (Task × Option (Int × Int)))
        (sa ea sb eb : Int),
        (backlogSweep dayEnd t blocks result warnings (tasksToPlace ts)).outcomes
          = O1 ++ (a, some (sa, ea)) :: (O2 ++ (b, some (sb, eb)) :: O3) →
        sa ≤ sb := by
  refine ⟨?_, ?_, ?_⟩
  · by_cases ha : 45 ≤ a.minutes
    · have hb := hclass.mp ha
      refine ⟨pre.filter (fun tk => 45 ≤ tk.minutes), mid.filter (fun tk => 45 ≤ tk.minutes),
        post.filter (fun tk => 45 ≤ tk.minutes) ++ ts.filter (fun tk => tk.minutes < 45), ?_⟩
      subst hts
      simp [tasksToPlace, List.filter_append, List.filter_cons, ha, hb,
        not_lt.mpr ha, not_lt.mpr hb]
    · have hb : ¬ 45 ≤ b.minutes := fun h => ha (hclass.mpr h)
      refine ⟨ts.filter (fun tk => 45 ≤ tk.minutes) ++ pre.filter (fun tk => tk.minutes < 45),
        mid.filter (fun tk => tk.minutes < 45), post.filter (fun tk => tk.minutes < 45), ?_⟩
      subst hts
      simp [tasksToPlace, List.filter_append, List.filter_cons, ha, hb,
        lt_of_not_le ha, lt_of_not_le hb]
  · intro now fx
    unfold generate
    dsimp only
    exact backlogSweep_outcomes_fst _ _ _ _ _ _
  · intro dayEnd t blocks result warnings O1 O2 O3 sa ea sb eb houtcomes
    have hpos' : ∀ x ∈ tasksToPlace ts, 0 ≤ x.minutes :=
      fun x hx => le_of_lt (hpos x (mem_of_mem_tasksToPlace hx))
    have hsorted := backlogSweep_starts_sorted (tasksToPlace ts) dayEnd t blocks
      result warnings hpos'
    rw [houtcomes] at hsorted
    have hsplit : placedStarts (O1 ++ (a, some (sa, ea)) :: (O2 ++ (b, some (sb, eb)) :: O3))
        = placedStarts O1 ++ sa :: (placedStarts O2 ++ sb :: placedStarts O3) := by
      simp [placedStarts, List.filterMap_append, List.filterMap_cons]
    rw [hsplit] at hsorted
    have hsub : List.Sublist [sa, sb]
        (placedStarts O1 ++ sa :: (placedStarts O2 ++ sb :: placedStarts O3)) := by
      refine List.Sublist.trans ?_ (List.sublist_append_right _ _)
      refine List.Sublist.cons₂ sa ?_
      refine List.Sublist.trans ?_ (List.sublist_append_right _ _)
      exact List.Sublist.cons₂ sb (List.nil_sublist _)
    have hpair := hsorted.sublist hsub
    rcases List.pairwise_cons.mp hpair with ⟨hab, -⟩
    exact hab sb (by simp)

/-- A second deep-work task for the C7 witness. -/
def cexTaskDeep2 : Task := { title := "C", category := "now", minutes := 60, priority := "high" }

/-- C7 witness: two equal-priority deep items placed in input order by a
concrete sweep have nondecreasing starts. -/
theorem spec_c7_witness : (0 : Int) ≤ 3600000 := by
  have h := spec_c7_amended [cexTaskDeep, cexTaskDeep2] [] [] [] cexTaskDeep cexTaskDeep2
    rfl rfl Iff.rfl (by decide)
  exact h.2.2 72000000 0 [] [] [] [] [] [] 0 3600000 3600000 7200000 (by decide)

/-! ## Claim C8 -/

/-- C8: the informational family-time slot (20:00–24:00 of the plan day) is
present in the output of every run — nothing can prevent it — and it is never
added to the conflict working set: every working-set block is a fixed,
reply, lunch or dinner block, or the block of some backlog task, so the
family slot never blocks the placement of any other block. -/
theorem spec_c8_family (now : Int) (fx : List FixedEvent) (ts : List Task) :
    familySlot (dayFloor now) ∈ (generate now fx ts).schedule
    ∧ ∀ b ∈ (generate now fx ts).blocks,
        b.type = "fixed" ∨ b.type = "reply" ∨ b.type = "lunch" ∨ b.type = "dinner"
        ∨ ∃ tk ∈ ts, ∃ s e : Int, b = taskBlock tk s e := by
  unfold generate
  dsimp only
  constructor
  · refine mem_sortSchedule.mpr ?_
    exact backlogSweep_result_mono _ _ _ _ _ _ _ (List.mem_append_right _ (by simp))
  · intro b hb
    rcases backlogSweep_blocks_provenance _ _ _ _ _ _ b hb with h | ⟨tk, htk, s, e, he⟩
    · rcases dinnerStage_blocks_provenance h with h' | h'
      · rcases lunchStage_blocks_provenance h' with h'' | h''
        · rcases replyLoop_blocks_provenance h'' with h3 | h3
          · obtain ⟨ev, -, rfl⟩ := List.mem_map.mp h3
            exact Or.inl rfl
          · exact Or.inr (Or.inl h3)
        · exact Or.inr (Or.inr (Or.inl h''))
      · exact Or.inr (Or.inr (Or.inr (Or.inl h')))
    · exact Or.inr (Or.inr (Or.inr (Or.inr ⟨tk, mem_of_mem_tasksToPlace htk, s, e, he⟩)))

/-- C8 witness: at a concrete run the family slot is in the output and a
concrete working-set block is of one of the committed kinds. -/
theorem spec_c8_witness :
    familySlot (dayFloor 28800000) ∈ (generate 28800000 [] []).schedule
    ∧ ((replyBlock0 29700000).type = "fixed" ∨ (replyBlock0 29700000).type = "reply"
        ∨ (replyBlock0 29700000).type = "lunch" ∨ (replyBlock0 29700000).type = "dinner"
        ∨ ∃ tk ∈ ([] : List Task), ∃ s e : Int, replyBlock0 29700000 = taskBlock tk s e) := by
  have h := spec_c8_family 28800000 [] []
  exact ⟨h.1, h.2 (replyBlock0 29700000) (by decide)⟩

/-! ## Claim C10 -/

/-- C10: during the backlog sweep, with positive task durations, the cursor
is nondecreasing: a failed scan advances it only by whole 15-minute steps, a
successful placement sets it to the placed block's end; every placed block
starts at or after the initial cursor (`planStart` in `generate`) and ends
at or before `dayEnd` (20:00), and the placed starts are nondecreasing in
processing order. -/
theorem spec_c10_cursor (dayEnd : Int) (ts : List Task) (t : Int)
    (blocks : List ScheduleBlock) (result : List TimeSlot) (warnings : List String)
    (hpos : ∀ x ∈ ts, 0 < x.minutes) :
    t ≤ (backlogSweep dayEnd t blocks result warnings ts).cursor
    ∧ (∀ task s e, (task, some (s, e)) ∈ (backlogSweep dayEnd t blocks result warnings ts).outcomes →
        t ≤ s ∧ e ≤ dayEnd ∧ e = s + task.minutes * 60000)
    ∧ (placedStarts (backlogSweep dayEnd t blocks result warnings ts).outcomes).Pairwise (· ≤ ·)
    ∧ (∀ task t2, placeLoop dayEnd task t blocks = (none, t2) →
        t ≤ t2 ∧ (t2 - t) % 900000 = 0)
    ∧ (∀ task s e t2, placeLoop dayEnd task t blocks = (some (s, e), t2) →
        t ≤ s ∧ (s - t) % 900000 = 0 ∧ t2 = s + task.minutes * 60000)
    ∧ ∀ (now : Int) (fx : List FixedEvent) (task : Task) (s e : Int),
        (task, some (s, e)) ∈ (generate now fx ts).outcomes →
        (generate now fx ts).planStart ≤ s ∧ e ≤ dayFloor now + 72000000 := by
  have hpos' : ∀ x ∈ ts, 0 ≤ x.minutes := fun x hx => le_of_lt (hpos x hx)
  refine ⟨backlogSweep_cursor_mono ts dayEnd t blocks result warnings hpos',
    backlogSweep_placed ts dayEnd t blocks result warnings hpos',
    backlogSweep_starts_sorted ts dayEnd t blocks result warnings hpos',
    fun task t2 h => placeLoop_none h,
    fun task s e t2 h => ?_, ?_⟩
  · have hs := placeLoop_some h
    exact ⟨hs.1, hs.2.1, by omega⟩
  · intro now fx task s e hmem
    have hpos2 : ∀ x ∈ tasksToPlace ts, 0 ≤ x.minutes :=
      fun x hx => hpos' x (mem_of_mem_tasksToPlace hx)
    revert hmem
    unfold generate
    dsimp only
    intro hmem
    have := backlogSweep_placed (tasksToPlace ts) _ _ _ _ _ hpos2 task s e hmem
    exact ⟨this.1, this.2.1⟩

/-- C10 witness: concrete sweep instance of the cursor/bounds facts. -/
theorem spec_c10_witness :
    (0 : Int) ≤ (backlogSweep 72000000 0 [] [] [] [cexTaskDeep]).cursor
    ∧ ((0 : Int) ≤ 0 ∧ (3600000 : Int) ≤ 72000000
        ∧ (3600000 : Int) = 0 + cexTaskDeep.minutes * 60000) := by
  have h := spec_c10_cursor 72000000 [cexTaskDeep] 0 [] [] [] (by decide)
  exact ⟨h.1, h.2.1 cexTaskDeep 0 3600000 (by decide)⟩

end TaskKanri
